import Mathlib

/-!
Verification of the jddf-go core: schema model, form classifier, schema
verifier and instance validator, together with proofs of the behavioural
claims about them.

The repository ships its error declarations (errors.go), tests
(schema_test.go, validator_test.go), package doc and README; the bodies of
Schema.Verify, Schema.Form and Validator.Validate are not among the given
sources, so those operations are modelled from the specification's
description of them (sections 3, 4.B, 4.C and 4.D), keeping the Go data
shapes (string-keyed tables, zero-value semantics) where the tests pin
them. Recursive operations take an explicit fuel argument so that every
definition is a computable total function; the Go originals recurse
without fuel, and the model returns a distinguished fuel-exhaustion value
exactly where the unbounded recursion would run deeper than the fuel.
-/

namespace JDDF

/-- Modelled from the spec (section 3): the `discriminator` record of a tag
and an optional mapping; the Go struct `Discriminator` has a plain string
`Tag`, and `Mapping` may be absent. -/
structure Discr (α : Type) where
  tag : String
  mapping : Option (List (String × α))

/-- A JDDF schema (spec section 3): a recursive record of nine optional
fields. `properties` is the required-properties table (Go name
`RequiredProperties`, JSON key `properties`). Mappings are modelled as
association lists preserving entry order; absence (`none`) is
distinguished from present-but-empty, as the spec requires. -/
inductive Schema where
  | mk
    (definitions : Option (List (String × Schema)))
    (ref : Option String)
    (type : Option String)
    (enum : Option (List String))
    (elements : Option Schema)
    (properties : Option (List (String × Schema)))
    (optionalProperties : Option (List (String × Schema)))
    (values : Option Schema)
    (discriminator : Option (Discr Schema))

/-- A string-to-Schema mapping, as an ordered association list. -/
abbrev SMap := List (String × Schema)

def Schema.definitions : Schema → Option SMap
  | .mk d _ _ _ _ _ _ _ _ => d

def Schema.ref : Schema → Option String
  | .mk _ r _ _ _ _ _ _ _ => r

def Schema.type : Schema → Option String
  | .mk _ _ t _ _ _ _ _ _ => t

def Schema.enum : Schema → Option (List String)
  | .mk _ _ _ e _ _ _ _ _ => e

def Schema.elements : Schema → Option Schema
  | .mk _ _ _ _ e _ _ _ _ => e

def Schema.properties : Schema → Option SMap
  | .mk _ _ _ _ _ p _ _ _ => p

def Schema.optionalProperties : Schema → Option SMap
  | .mk _ _ _ _ _ _ o _ _ => o

def Schema.values : Schema → Option Schema
  | .mk _ _ _ _ _ _ _ v _ => v

def Schema.discriminator : Schema → Option (Discr Schema)
  | .mk _ _ _ _ _ _ _ _ d => d

/-- The schema with every field absent (the Go zero value of `Schema`). -/
def Schema.emptySchema : Schema := .mk none none none none none none none none none

/-- Lookup in a string-keyed association list, first match wins (the Go
code uses a native map; entry order only matters for traversal order). -/
def assocLookup : List (String × α) → String → Option α
  | [], _ => none
  | (k, v) :: rest, q => if k == q then some v else assocLookup rest q

def assocKeys (l : List (String × α)) : List String := l.map (fun kv => kv.1)

def assocHas (l : List (String × α)) (k : String) : Bool := (assocKeys l).contains k

def Schema.definitionsD (s : Schema) : SMap := s.definitions.getD []

def Schema.propertiesD (s : Schema) : SMap := s.properties.getD []

def Schema.optionalPropertiesD (s : Schema) : SMap := s.optionalProperties.getD []

/-- The eight JDDF forms (spec section 3). -/
inductive Form where
  | empty
  | ref
  | type
  | enum
  | elements
  | properties
  | values
  | discriminator
deriving DecidableEq, Repr

/-- Modelled from the spec (section 4.B, Form classifier, body not under the
given sources): the form of the first present field in the fixed priority
order Ref, Type, Enum, Elements, Properties, Values, Discriminator, else
Empty; `properties` and `optionalProperties` both select the Properties
form. -/
def Schema.form : Schema → Form
  | .mk _ r t en el props opts vals disc =>
    if r.isSome then .ref
    else if t.isSome then .type
    else if en.isSome then .enum
    else if el.isSome then .elements
    else if props.isSome || opts.isSome then .properties
    else if vals.isSome then .values
    else if disc.isSome then .discriminator
    else .empty

def presence (o : Option α) : Nat := if o.isSome then 1 else 0

/-- Number of present form-defining keyword groups (spec section 4.C step 2):
ref, type, enum, elements, properties-or-optionalProperties, values,
discriminator; the two property tables count as one group. -/
def formCountF (r t : Option String) (en : Option (List String))
    (el : Option Schema) (props opts : Option SMap) (vals : Option Schema)
    (disc : Option (Discr Schema)) : Nat :=
  presence r + presence t + presence en + presence el +
    (if props.isSome || opts.isSome then 1 else 0) + presence vals + presence disc

def Schema.formCount : Schema → Nat
  | .mk _ r t en el props opts vals disc => formCountF r t en el props opts vals disc

/-- The schema-verification errors (errors.go). Constructors carry the
offending identifier exactly where the Go error values do. -/
inductive VerifyErr where
  | invalidForm
  | nonRootDefinition
  | emptyEnum
  | missingDiscriminatorMapping
  | nonPropertiesMapping
  | noSuchDefinition (name : String)
  | invalidType (name : String)
  | repeatedEnumValue (value : String)
  | repeatedProperty (key : String)
  | repeatedTagInProperties (tag : String)
deriving DecidableEq, Repr

/-- Outcome of a verification step: success, the first error found, or
exhaustion of the modelling fuel (the Go recursion has no fuel and always
terminates on finite schema trees; `fuelOut` never arises with fuel larger
than the schema depth). -/
inductive VerifyOut where
  | ok
  | err (e : VerifyErr)
  | fuelOut
deriving DecidableEq, Repr

/-- First failure of two verification steps; fuel exhaustion propagates. -/
def orV : VerifyOut → VerifyOut → VerifyOut
  | .ok, b => b
  | a, _ => a

/-- Run a verification step for each list entry in order, first failure
wins. -/
def listVerify (f : α → VerifyOut) : List α → VerifyOut
  | [] => .ok
  | x :: xs => orV (f x) (listVerify f xs)

/-- The eleven legal values of `type` (spec section 3). -/
def typeStrings : List String :=
  ["boolean", "float32", "float64", "int8", "uint8", "int16", "uint16",
   "int32", "uint32", "string", "timestamp"]

def firstDupAux : List String → List String → Option String
  | _, [] => none
  | seen, x :: rest => if seen.contains x then some x else firstDupAux (x :: seen) rest

/-- The first value of the list that repeats an earlier one (spec section
4.C step 5: the first duplicate is reported). -/
def firstDup (l : List String) : Option String := firstDupAux [] l

/-- The first key of the required table that also occurs in the optional
table (spec section 4.C step 6). -/
def sharedKey : List (String × α) → List (String × α) → Option String
  | [], _ => none
  | (k, _) :: rest, opt => if assocHas opt k then some k else sharedKey rest opt

/-- Modelled from the spec (section 4.C, Schema verifier, body not under the
given sources): pre-order check of one node, steps 1-8 in the spec's
order — non-root definitions, form count, ref resolution against the root's
definitions, type membership, enum non-emptiness and uniqueness, disjointness
of the two property tables, discriminator well-formedness (each mapping
value verifies, is of the Properties form, and does not repeat the tag in
either property table), then recursion into owned sub-schemas in keyword
order. -/
def verifyNode (root : Schema) : Nat → Schema → Bool → VerifyOut
  | 0, _, _ => .fuelOut
  | fuel + 1, s, isRoot =>
    orV (if !isRoot && s.definitions.isSome then .err .nonRootDefinition else .ok)
    (orV (if 1 < s.formCount then .err .invalidForm else .ok)
    (orV (match s.ref with
          | some name =>
            if assocHas root.definitionsD name then .ok
            else .err (.noSuchDefinition name)
          | none => .ok)
    (orV (match s.type with
          | some ty => if typeStrings.contains ty then .ok else .err (.invalidType ty)
          | none => .ok)
    (orV (match s.enum with
          | some l =>
            if l.isEmpty then .err .emptyEnum
            else match firstDup l with
                 | some v => .err (.repeatedEnumValue v)
                 | none => .ok
          | none => .ok)
    (orV (match s.properties, s.optionalProperties with
          | some rm, some om =>
            (match sharedKey rm om with
             | some k => .err (.repeatedProperty k)
             | none => .ok)
          | _, _ => .ok)
    (orV (match s.discriminator with
          | some d =>
            match d.mapping with
            | none => .err .missingDiscriminatorMapping
            | some mm =>
              listVerify
                (fun kv =>
                  orV (verifyNode root fuel kv.2 false)
                  (orV (if kv.2.form == Form.properties then .ok else .err .nonPropertiesMapping)
                  (if assocHas kv.2.propertiesD d.tag || assocHas kv.2.optionalPropertiesD d.tag
                   then .err (.repeatedTagInProperties d.tag) else .ok)))
                mm
          | none => .ok)
    (orV (listVerify (fun kv => verifyNode root fuel kv.2 false) s.definitionsD)
    (orV (match s.elements with | some sub => verifyNode root fuel sub false | none => .ok)
    (orV (listVerify (fun kv => verifyNode root fuel kv.2 false) s.propertiesD)
    (orV (listVerify (fun kv => verifyNode root fuel kv.2 false) s.optionalPropertiesD)
    (match s.values with | some sub => verifyNode root fuel sub false | none => .ok)))))))))))

/-- Modelled from the spec (section 4.C): `verify(schema) → ok | error`;
the first verification error of the pre-order walk, for a given recursion
fuel. -/
def Schema.verify (s : Schema) (fuel : Nat) : VerifyOut := verifyNode s fuel s true

/-- A decoded JSON value (an instance). Numbers are modelled as rationals:
the engine only inspects integrality and range of a number. -/
inductive Json where
  | null
  | bool (b : Bool)
  | num (q : Rat)
  | str (s : String)
  | arr (elements : List Json)
  | obj (members : List (String × Json))

def digitAt (cs : List Char) (i : Nat) : Bool := (cs.getD i ' ').isDigit

/-- Modelled from the spec (section 4.D.2): `timestamp` requires the string
to be a valid RFC 3339 date-time. The Go validator delegates this to the
standard time parser, which is not among the given sources; a structural
shape check on the date-time skeleton stands in for the full grammar (no
verified claim involves the `timestamp` type). -/
def rfc3339Shape (s : String) : Bool :=
  let cs := s.toList
  decide (20 ≤ cs.length) &&
  digitAt cs 0 && digitAt cs 1 && digitAt cs 2 && digitAt cs 3 &&
  (cs.getD 4 ' ' == '-') && digitAt cs 5 && digitAt cs 6 &&
  (cs.getD 7 ' ' == '-') && digitAt cs 8 && digitAt cs 9 &&
  (cs.getD 10 ' ' == 'T') && digitAt cs 11 && digitAt cs 12 &&
  (cs.getD 13 ' ' == ':') && digitAt cs 14 && digitAt cs 15 &&
  (cs.getD 16 ' ' == ':') && digitAt cs 17 && digitAt cs 18

/-- Whether the instance is an integer-valued number within `[lo, hi]`. -/
def intIn : Json → Int → Int → Bool
  | .num q, lo, hi => q.den == 1 && decide (lo ≤ q.num) && decide (q.num ≤ hi)
  | _, _, _ => false

/-- Modelled from the spec (section 4.D.2, type matching): single-point
predicates for the eleven type names. -/
def typeMatches (t : String) (i : Json) : Bool :=
  if t == "boolean" then (match i with | .bool _ => true | _ => false)
  else if t == "string" then (match i with | .str _ => true | _ => false)
  else if t == "timestamp" then (match i with | .str s => rfc3339Shape s | _ => false)
  else if t == "float32" || t == "float64" then (match i with | .num _ => true | _ => false)
  else if t == "int8" then intIn i (-128) 127
  else if t == "uint8" then intIn i 0 255
  else if t == "int16" then intIn i (-32768) 32767
  else if t == "uint16" then intIn i 0 65535
  else if t == "int32" then intIn i (-2147483648) 2147483647
  else if t == "uint32" then intIn i 0 4294967295
  else false

/-- A validation error: a pair of paths, each an ordered sequence of string
segments (spec section 3, ValidationError). -/
structure ValidationError where
  instancePath : List String
  schemaPath : List String
deriving DecidableEq, Repr

/-- The validator configuration (spec section 6): `maxErrors` caps the
number of errors returned and `maxDepth` caps ref hops; zero means
unlimited, as in the Go struct's zero value. -/
structure Validator where
  maxDepth : Nat
  maxErrors : Nat
deriving DecidableEq, Repr

/-- Outcome of one engine step: the accumulated errors, the same marked as
complete because the error cap was reached (unwinding), the abnormal
max-depth termination, or exhaustion of the modelling fuel. -/
inductive VResult where
  | ok (errs : List ValidationError)
  | halted (errs : List ValidationError)
  | maxDepth
  | fuelOut
deriving DecidableEq, Repr

/-- Append one error, then check the cap (spec section 4.D.4): when
`maxErrors` is set and has been reached, unwind promptly. -/
def pushError (v : Validator) (e : ValidationError) (acc : List ValidationError) : VResult :=
  if v.maxErrors ≠ 0 ∧ v.maxErrors ≤ (acc ++ [e]).length then .halted (acc ++ [e])
  else .ok (acc ++ [e])

/-- Sequencing of engine steps: a halt, depth abort or fuel exhaustion
propagates without running the continuation. -/
def VResult.andThen : VResult → (List ValidationError → VResult) → VResult
  | .ok errs, f => f errs
  | r, _ => r

/-- Run an engine step for each list entry in order, threading the
accumulated errors and stopping at the first non-ok outcome. -/
def runList (f : α → List ValidationError → VResult) : List α → List ValidationError → VResult
  | [], acc => .ok acc
  | x :: xs, acc => (f x acc).andThen (runList f xs)

def jLookup : List (String × Json) → String → Option Json
  | [], _ => none
  | (k, v) :: rest, q => if k == q then some v else jLookup rest q

/-- Modelled from the spec (section 4.D, Validator engine, body not under
the given sources): recursive descent dispatching on the schema's form,
carrying the root schema, the excluded discriminator tag, the ref-hop
depth, both paths and the accumulated errors. `fuel` bounds the recursion
so the model is total; the Go engine has no such bound and diverges where
the model returns `fuelOut`. Ref resolution uses the Go map zero-value
semantics: a missing definition resolves to the empty schema. -/
def validateGo (v : Validator) (root : Schema) :
    Nat → Option String → Nat → List String → List String → Schema → Json →
    List ValidationError → VResult
  | 0, _, _, _, _, _, _, _ => .fuelOut
  | fuel + 1, ex, depth, ip, sp, s, inst, acc =>
    match s.form with
    | .empty => .ok acc
    | .ref =>
      let name := s.ref.getD ""
      if v.maxDepth ≠ 0 ∧ v.maxDepth < depth + 1 then .maxDepth
      else
        validateGo v root fuel none (depth + 1) ip (sp ++ ["definitions", name])
          ((assocLookup root.definitionsD name).getD Schema.emptySchema) inst acc
    | .type =>
      if typeMatches (s.type.getD "") inst then .ok acc
      else pushError v ⟨ip, sp ++ ["type"]⟩ acc
    | .enum =>
      match inst with
      | .str x =>
        if (s.enum.getD []).contains x then .ok acc
        else pushError v ⟨ip, sp ++ ["enum"]⟩ acc
      | _ => pushError v ⟨ip, sp ++ ["enum"]⟩ acc
    | .elements =>
      match inst with
      | .arr xs =>
        runList
          (fun p acc =>
            validateGo v root fuel none depth (ip ++ [toString p.1]) (sp ++ ["elements"])
              (s.elements.getD Schema.emptySchema) p.2 acc)
          xs.enum acc
      | _ => pushError v ⟨ip, sp ++ ["elements"]⟩ acc
    | .properties =>
      match inst with
      | .obj mem =>
        (runList
          (fun kv acc =>
            match jLookup mem kv.1 with
            | some val =>
              validateGo v root fuel none depth (ip ++ [kv.1]) (sp ++ ["properties", kv.1]) kv.2 val acc
            | none => pushError v ⟨ip, sp ++ ["properties", kv.1]⟩ acc)
          s.propertiesD acc).andThen
        (fun acc =>
          (runList
            (fun kv acc =>
              match jLookup mem kv.1 with
              | some val =>
                validateGo v root fuel none depth (ip ++ [kv.1]) (sp ++ ["optionalProperties", kv.1]) kv.2 val acc
              | none => .ok acc)
            s.optionalPropertiesD acc).andThen
          (fun acc =>
            runList
              (fun kv acc =>
                if assocHas s.propertiesD kv.1 || assocHas s.optionalPropertiesD kv.1 then .ok acc
                else if ex == some kv.1 then .ok acc
                else pushError v ⟨ip ++ [kv.1], sp⟩ acc)
              mem acc))
      | _ =>
        pushError v ⟨ip, sp ++ [if s.properties.isSome then "properties" else "optionalProperties"]⟩ acc
    | .values =>
      match inst with
      | .obj mem =>
        runList
          (fun kv acc =>
            validateGo v root fuel none depth (ip ++ [kv.1]) (sp ++ ["values"])
              (s.values.getD Schema.emptySchema) kv.2 acc)
          mem acc
      | _ => pushError v ⟨ip, sp ++ ["values"]⟩ acc
    | .discriminator =>
      let d := s.discriminator.getD ⟨"", none⟩
      match inst with
      | .obj mem =>
        match jLookup mem d.tag with
        | none => pushError v ⟨ip, sp ++ ["discriminator", "tag"]⟩ acc
        | some (.str tv) =>
          match assocLookup (d.mapping.getD []) tv with
          | some sub =>
            validateGo v root fuel (some d.tag) depth ip (sp ++ ["discriminator", "mapping", tv]) sub inst acc
          | none => pushError v ⟨ip ++ [d.tag], sp ++ ["discriminator", "mapping"]⟩ acc
        | some _ => pushError v ⟨ip ++ [d.tag], sp ++ ["discriminator", "tag"]⟩ acc
      | _ => pushError v ⟨ip, sp ++ ["discriminator"]⟩ acc

/-- The observable outcome of a validation (spec section 4.D): the ordered
error list, or the distinguished abnormal max-depth termination. -/
inductive ValidateResult where
  | ok (errors : List ValidationError)
  | maxDepthExceeded
deriving DecidableEq, Repr

/-- Modelled from the spec (section 4.D): `validate(schema, instance)`.
`none` marks fuel exhaustion of the model (divergence of the unbounded Go
recursion); `some` is the Go call's outcome. -/
def Validator.validate (v : Validator) (fuel : Nat) (s : Schema) (i : Json) :
    Option ValidateResult :=
  match validateGo v s fuel none 0 [] [] s i [] with
  | .ok errs => some (.ok errs)
  | .halted errs => some (.ok errs)
  | .maxDepth => some .maxDepthExceeded
  | .fuelOut => none

/-! Concrete schemas and instances from the repository's test suites. -/

/-- The schema of JSON text `\x7b"type":"boolean"\x7d`. -/
def sBool : Schema := .mk none none (some "boolean") none none none none none none

/-- The schema of `\x7b"elements":\x7b"type":"boolean"\x7d\x7d` (TestMaxErrors). -/
def sElemBool : Schema := .mk none none none none (some sBool) none none none none

/-- The schema of `\x7b"ref":""\x7d`. -/
def sRefOnly : Schema := .mk none (some "") none none none none none none none

/-- The self-referential schema of TestMaxDepth:
`\x7b"definitions":\x7b"":\x7b"ref":""\x7d\x7d,"ref":""\x7d`. -/
def sCyc : Schema := .mk (some [("", sRefOnly)]) (some "") none none none none none none none

/-- The schema of `\x7b"definitions":\x7b"":\x7b\x7d\x7d,"ref":""\x7d`. -/
def sDefsRef : Schema :=
  .mk (some [("", Schema.emptySchema)]) (some "") none none none none none none none

/-- The schema of `\x7b"definitions":\x7b"":\x7b\x7d\x7d,"ref":"","type":"boolean"\x7d`. -/
def sRefType : Schema :=
  .mk (some [("", Schema.emptySchema)]) (some "") (some "boolean") none none none none none none

/-- The schema of `\x7b"type":"boolean","enum":["a"]\x7d`. -/
def sTypeEnum : Schema := .mk none none (some "boolean") (some ["a"]) none none none none none

/-- The schema of `\x7b"elements":\x7b\x7d,"properties":\x7b\x7d\x7d`. -/
def sElemsProps : Schema :=
  .mk none none none none (some Schema.emptySchema) (some []) none none none

/-- The schema of `\x7b"elements":\x7b\x7d,"optionalProperties":\x7b\x7d\x7d`. -/
def sElemsOpts : Schema :=
  .mk none none none none (some Schema.emptySchema) none (some []) none none

/-- The schema of `\x7b"values":\x7b\x7d,"discriminator":\x7b"mapping":\x7b\x7d\x7d\x7d`. -/
def sValsDisc : Schema :=
  .mk none none none none none none none (some Schema.emptySchema) (some ⟨"", some []⟩)

/-- The schema of `\x7b"enum":[]\x7d`. -/
def sEnumEmpty : Schema := .mk none none none (some []) none none none none none

/-- The schema of `\x7b"enum":["a","a"]\x7d`. -/
def sEnumDup : Schema := .mk none none none (some ["a", "a"]) none none none none none

/-- The schema of `\x7b"enum":["a","b","c"]\x7d`. -/
def sEnumABC : Schema := .mk none none none (some ["a", "b", "c"]) none none none none none

/-- The schema of `\x7b"elements":\x7b"ref":""\x7d\x7d`. -/
def sElemRef : Schema := .mk none none none none (some sRefOnly) none none none none

/-- The schema of `\x7b"properties":\x7b"a":\x7b"ref":""\x7d\x7d\x7d`. -/
def sPropsRef : Schema := .mk none none none none none (some [("a", sRefOnly)]) none none none

/-- The schema of `\x7b"optionalProperties":\x7b"a":\x7b"ref":""\x7d\x7d\x7d`. -/
def sOptsRef : Schema := .mk none none none none none none (some [("a", sRefOnly)]) none none

/-- The schema of `\x7b"values":\x7b"ref":""\x7d\x7d`. -/
def sValuesRef : Schema := .mk none none none none none none none (some sRefOnly) none

/-- A discriminator whose mapping value carries a dangling ref inside its
properties table. -/
def sDiscMapRef : Schema := .mk none none none none none none none none
  (some ⟨"t", some [("x", Schema.mk none none none none none (some [("p", sRefOnly)]) none none none)]⟩)

/-- The schema of `\x7b"discriminator":\x7b"mapping":\x7b"":\x7b\x7d\x7d\x7d\x7d`. -/
def sDiscEmptyMapping : Schema := .mk none none none none none none none none
  (some ⟨"", some [("", Schema.emptySchema)]⟩)

/-- The schema whose discriminator tag `a` recurs in a mapping value's
`properties`. -/
def sDiscTagProps : Schema := .mk none none none none none none none none
  (some ⟨"a", some [("", Schema.mk none none none none none (some [("a", Schema.emptySchema)]) none none none)]⟩)

/-- The schema whose discriminator tag `a` recurs in a mapping value's
`optionalProperties`. -/
def sDiscTagOpts : Schema := .mk none none none none none none none none
  (some ⟨"a", some [("", Schema.mk none none none none none none (some [("a", Schema.emptySchema)]) none none)]⟩)

/-- The well-formed discriminator schema of the test suite:
`\x7b"discriminator":\x7b"tag":"a","mapping":\x7b"":\x7b"properties":\x7b"b":\x7b\x7d\x7d\x7d\x7d\x7d\x7d`. -/
def sDiscGood : Schema := .mk none none none none none none none none
  (some ⟨"a", some [("", Schema.mk none none none none none (some [("b", Schema.emptySchema)]) none none none)]⟩)

/-- The five-null array instance of TestMaxErrors. -/
def iFiveNulls : Json := .arr [.null, .null, .null, .null, .null]

/-! Small facts about the verifier's sequencing combinators. -/

theorem orV_eq_ok {a b : VerifyOut} : orV a b = .ok ↔ a = .ok ∧ b = .ok := by
  cases a <;> simp [orV]

theorem listVerify_eq_ok {f : α → VerifyOut} :
    ∀ {l : List α}, listVerify f l = .ok → ∀ x ∈ l, f x = .ok := by
  intro l
  induction l with
  | nil => simp
  | cons y ys ih =>
    intro h x hx
    rw [listVerify, orV_eq_ok] at h
    rcases List.mem_cons.mp hx with rfl | hx
    · exact h.1
    · exact ih h.2 x hx

theorem firstDup_isEmpty_false {l : List String} {x : String}
    (h : firstDup l = some x) : l.isEmpty = false := by
  cases l with
  | nil => simp [firstDup, firstDupAux] at h
  | cons a rest => rfl

/-- C10: the empty string is a legal definition name and ref target:
`\x7b"definitions":\x7b"":\x7b\x7d\x7d,"ref":""\x7d` verifies and classifies as
the Ref form, while `\x7b"ref":""\x7d` fails verification with the
no-such-definition error carrying the empty string. -/
theorem c10_empty_string_name :
    sDefsRef.verify 20 = .ok ∧ sDefsRef.form = Form.ref ∧
    sRefOnly.verify 20 = .err (.noSuchDefinition "") :=
  ⟨rfl, rfl, rfl⟩

/-- C5: the form classifier returns the form of the first present field in
the priority order Ref, Type, Enum, Elements, Properties, Values,
Discriminator, else Empty, regardless of verification; in particular a
schema with both ref and type classifies as Ref, a schema with both type
and enum classifies as Type, and both fail verification. -/
theorem c5_form_priority :
    (∀ s : Schema, s.ref.isSome = true → s.form = Form.ref) ∧
    (∀ s : Schema, s.ref = none → s.type.isSome = true → s.form = Form.type) ∧
    (∀ s : Schema, s.ref = none → s.type = none → s.enum.isSome = true →
      s.form = Form.enum) ∧
    (∀ s : Schema, s.ref = none → s.type = none → s.enum = none →
      s.elements.isSome = true → s.form = Form.elements) ∧
    (∀ s : Schema, s.ref = none → s.type = none → s.enum = none →
      s.elements = none → (s.properties.isSome || s.optionalProperties.isSome) = true →
      s.form = Form.properties) ∧
    (∀ s : Schema, s.ref = none → s.type = none → s.enum = none →
      s.elements = none → s.properties = none → s.optionalProperties = none →
      s.values.isSome = true → s.form = Form.values) ∧
    (∀ s : Schema, s.ref = none → s.type = none → s.enum = none →
      s.elements = none → s.properties = none → s.optionalProperties = none →
      s.values = none → s.discriminator.isSome = true → s.form = Form.discriminator) ∧
    (∀ s : Schema, s.ref = none → s.type = none → s.enum = none →
      s.elements = none → s.properties = none → s.optionalProperties = none →
      s.values = none → s.discriminator = none → s.form = Form.empty) ∧
    (sRefType.form = Form.ref ∧ sRefType.verify 20 = .err .invalidForm) ∧
    (sTypeEnum.form = Form.type ∧ sTypeEnum.verify 20 = .err .invalidForm) := by
  refine ⟨?_, ?_, ?_, ?_, ?_, ?_, ?_, ?_, ⟨rfl, rfl⟩, ⟨rfl, rfl⟩⟩ <;>
    · intro s
      cases s with
      | mk defs r t en el props opts vals disc =>
        intros
        simp_all [Schema.form, Schema.ref, Schema.type, Schema.enum, Schema.elements,
          Schema.properties, Schema.optionalProperties, Schema.values, Schema.discriminator]

/-- C5 witness: a schema with both ref and type present classifies as Ref. -/
theorem c5_form_priority_witness : sRefType.form = Form.ref :=
  c5_form_priority.1 sRefType rfl

/-- C3: a schema in which more than one of the form-defining keyword groups
is present (the two property tables counting as one group) fails
verification with the invalid-form error; conversely a verified schema has
at most one group; the elements+properties, elements+optionalProperties and
values+discriminator test schemas all report invalid-form. -/
theorem c3_invalid_form :
    (∀ (s : Schema) (fuel : Nat), 1 < s.formCount →
      s.verify (fuel + 1) = .err .invalidForm) ∧
    (∀ (s : Schema) (fuel : Nat), s.verify fuel = .ok → s.formCount ≤ 1) ∧
    sElemsProps.verify 20 = .err .invalidForm ∧
    sElemsOpts.verify 20 = .err .invalidForm ∧
    sValsDisc.verify 20 = .err .invalidForm := by
  refine ⟨?_, ?_, rfl, rfl, rfl⟩
  · intro s fuel h
    rw [Schema.verify, verifyNode]
    simp [orV, h]
  · intro s fuel h
    cases fuel with
    | zero => simp [Schema.verify, verifyNode] at h
    | succ fuel =>
      by_cases hc : 1 < s.formCount
      · rw [Schema.verify, verifyNode] at h
        simp [orV, hc] at h
      · omega

/-- C3 witness: a concrete schema with two groups present reports
invalid-form. -/
theorem c3_invalid_form_witness : sElemsProps.verify 20 = .err .invalidForm :=
  c3_invalid_form.1 sElemsProps 19 (by decide)

/-- C9: an Empty-form schema yields zero errors on any instance; in
particular the empty schema accepts `null`. -/
theorem c9_empty_accepts (v : Validator) (fuel : Nat) (s : Schema) (i : Json)
    (hf : 0 < fuel) (hform : s.form = Form.empty) :
    v.validate fuel s i = some (ValidateResult.ok []) := by
  obtain ⟨k, rfl⟩ : ∃ k, fuel = k + 1 := ⟨fuel - 1, by omega⟩
  simp [Validator.validate, validateGo, hform]

/-- C9 witness: the empty schema with instance `null` yields zero errors. -/
theorem c9_empty_accepts_witness :
    (Validator.mk 0 0).validate 1 Schema.emptySchema Json.null = some (ValidateResult.ok []) :=
  c9_empty_accepts (Validator.mk 0 0) 1 Schema.emptySchema Json.null (by decide) rfl

/-- C8: a Type-form schema whose instance fails the type predicate emits
exactly one error, at the current instance path and the current schema path
extended by the segment `type`; in particular `\x7b"type":"boolean"\x7d`
against instance `3` yields one error with empty instance path and schema
path `["type"]`. -/
theorem c8_type_mismatch :
    (∀ (v : Validator) (root : Schema) (fuel : Nat) (ex : Option String) (depth : Nat)
      (ip sp : List String) (s : Schema) (i : Json) (acc : List ValidationError),
      v.maxErrors = 0 → s.form = Form.type → typeMatches (s.type.getD "") i = false →
      validateGo v root (fuel + 1) ex depth ip sp s i acc =
        VResult.ok (acc ++ [⟨ip, sp ++ ["type"]⟩])) ∧
    (Validator.mk 0 0).validate 2 sBool (Json.num 3) =
      some (ValidateResult.ok [⟨[], ["type"]⟩]) := by
  refine ⟨?_, rfl⟩
  intro v root fuel ex depth ip sp s i acc hme hform htm
  simp [validateGo, hform, htm, pushError, hme]

/-- C8 witness: the Type-form step at a concrete mismatching input appends
exactly the one expected error. -/
theorem c8_type_mismatch_witness :
    validateGo (Validator.mk 0 0) Schema.emptySchema 1 none 0 [] [] sBool (Json.num 3) [] =
      VResult.ok [⟨[], ["type"]⟩] :=
  c8_type_mismatch.1 (Validator.mk 0 0) Schema.emptySchema 0 none 0 [] [] sBool
    (Json.num 3) [] rfl rfl rfl

/-- C2: validating the self-referential TestMaxDepth schema against `null`
with max depth 3 terminates abnormally with the max-depth-exceeded error;
and max-depth-exceeded is the only abnormal outcome a validation can have —
every other completed call returns a list of ValidationErrors. -/
theorem c2_max_depth :
    (Validator.mk 3 0).validate 100 sCyc Json.null = some ValidateResult.maxDepthExceeded ∧
    (∀ (v : Validator) (fuel : Nat) (s : Schema) (i : Json) (r : ValidateResult),
      v.validate fuel s i = some r →
      r = ValidateResult.maxDepthExceeded ∨ ∃ errs, r = ValidateResult.ok errs) := by
  refine ⟨rfl, ?_⟩
  intro v fuel s i r _
  cases r with
  | ok errs => exact Or.inr ⟨errs, rfl⟩
  | maxDepthExceeded => exact Or.inl rfl

/-- C2 witness: the taxonomy applied to the TestMaxDepth run. -/
theorem c2_max_depth_witness :
    ValidateResult.maxDepthExceeded = ValidateResult.maxDepthExceeded ∨
      ∃ errs, ValidateResult.maxDepthExceeded = ValidateResult.ok errs :=
  c2_max_depth.2 (Validator.mk 3 0) 100 sCyc Json.null ValidateResult.maxDepthExceeded rfl

/-- C7: an Enum-form schema with an empty sequence fails verification with
the empty-enum error; one with a repeated value fails with the
repeated-enum-value error carrying the first duplicate; a non-empty
duplicate-free enum passes both checks; and any verified schema with a
present enum has a non-empty, duplicate-free one. -/
theorem c7_enum_checks :
    (∀ (defs : Option SMap) (fuel : Nat),
      (Schema.mk defs none none (some []) none none none none none).verify (fuel + 1) =
        .err .emptyEnum) ∧
    (∀ (defs : Option SMap) (l : List String) (x : String) (fuel : Nat),
      firstDup l = some x →
      (Schema.mk defs none none (some l) none none none none none).verify (fuel + 1) =
        .err (.repeatedEnumValue x)) ∧
    (∀ (l : List String) (fuel : Nat), l.isEmpty = false → firstDup l = none →
      (Schema.mk none none none (some l) none none none none none).verify (fuel + 1) = .ok) ∧
    (∀ (s : Schema) (l : List String) (fuel : Nat), s.verify fuel = .ok →
      s.enum = some l → l.isEmpty = false ∧ firstDup l = none) ∧
    sEnumEmpty.verify 20 = .err .emptyEnum ∧
    sEnumDup.verify 20 = .err (.repeatedEnumValue "a") ∧
    sEnumABC.verify 20 = .ok := by
  refine ⟨?_, ?_, ?_, ?_, rfl, rfl, rfl⟩
  · intro defs fuel
    rw [Schema.verify, verifyNode]
    simp [orV, Schema.formCount, formCountF, presence, Schema.definitions, Schema.ref,
      Schema.type, Schema.enum, Schema.elements, Schema.properties,
      Schema.optionalProperties, Schema.values, Schema.discriminator]
  · intro defs l x fuel h
    rw [Schema.verify, verifyNode]
    simp [orV, Schema.formCount, formCountF, presence, Schema.definitions, Schema.ref,
      Schema.type, Schema.enum, Schema.elements, Schema.properties,
      Schema.optionalProperties, Schema.values, Schema.discriminator,
      firstDup_isEmpty_false h, h]
  · intro l fuel hne hdup
    rw [Schema.verify, verifyNode]
    simp [orV, Schema.formCount, formCountF, presence, Schema.definitions, Schema.ref,
      Schema.type, Schema.enum, Schema.elements, Schema.properties,
      Schema.optionalProperties, Schema.values, Schema.discriminator,
      Schema.definitionsD, Schema.propertiesD, Schema.optionalPropertiesD,
      listVerify, hne, hdup]
  · intro s l fuel h henum
    cases fuel with
    | zero => simp [Schema.verify, verifyNode] at h
    | succ fuel =>
      rw [Schema.verify, verifyNode] at h
      simp only [orV_eq_ok] at h
      obtain ⟨-, -, -, -, h5, -⟩ := h
      rw [henum] at h5
      by_cases he : l.isEmpty = true
      · simp [he] at h5
      · cases hd : firstDup l with
        | some x => simp [he, hd] at h5
        | none => exact ⟨by simpa using he, rfl⟩

/-- C7 witness: the duplicate-enum rule applied to `\x7b"enum":["a","a"]\x7d`. -/
theorem c7_enum_checks_witness :
    (Schema.mk none none none (some ["a", "a"]) none none none none none).verify 20 =
      .err (.repeatedEnumValue "a") :=
  c7_enum_checks.2.1 none ["a", "a"] "a" 19 rfl

/-- C4: a discriminator without a mapping fails verification with the
missing-discriminator-mapping error; a verified schema's discriminator has
a mapping every value of which verifies, is of the Properties form, and
repeats the tag in neither property table; concretely, an empty schema as
mapping value is rejected with non-properties-mapping, a tag occurring in a
mapping value's properties or optionalProperties is rejected with
repeated-tag-in-properties carrying the tag, and the well-formed test
discriminator verifies. -/
theorem c4_discriminator_checks :
    (∀ (defs : Option SMap) (tag : String) (fuel : Nat),
      (Schema.mk defs none none none none none none none (some ⟨tag, none⟩)).verify (fuel + 1) =
        .err .missingDiscriminatorMapping) ∧
    (∀ (s : Schema) (d : Discr Schema) (fuel : Nat), s.verify (fuel + 1) = .ok →
      s.discriminator = some d →
      ∃ mm, d.mapping = some mm ∧ ∀ kv ∈ mm,
        verifyNode s fuel kv.2 false = .ok ∧ kv.2.form = Form.properties ∧
        assocHas kv.2.propertiesD d.tag = false ∧
        assocHas kv.2.optionalPropertiesD d.tag = false) ∧
    sDiscEmptyMapping.verify 20 = .err .nonPropertiesMapping ∧
    sDiscTagProps.verify 20 = .err (.repeatedTagInProperties "a") ∧
    sDiscTagOpts.verify 20 = .err (.repeatedTagInProperties "a") ∧
    sDiscGood.verify 20 = .ok := by
  refine ⟨?_, ?_, rfl, rfl, rfl, rfl⟩
  · intro defs tag fuel
    rw [Schema.verify, verifyNode]
    simp [orV, Schema.formCount, formCountF, presence, Schema.definitions, Schema.ref,
      Schema.type, Schema.enum, Schema.elements, Schema.properties,
      Schema.optionalProperties, Schema.values, Schema.discriminator]
  · intro s d fuel h hd
    obtain ⟨tag, m⟩ := d
    rw [Schema.verify, verifyNode] at h
    simp only [orV_eq_ok] at h
    obtain ⟨-, -, -, -, -, -, h7, -⟩ := h
    rw [hd] at h7
    cases m with
    | none => simp at h7
    | some mm =>
      simp only [Discr.mapping] at h7 ⊢
      refine ⟨mm, rfl, ?_⟩
      intro kv hkv
      have hpt := listVerify_eq_ok h7 kv hkv
      simp only [orV_eq_ok] at hpt
      obtain ⟨h1, h2, h3⟩ := hpt
      refine ⟨h1, ?_, ?_, ?_⟩
      · by_cases hf : (kv.2.form == Form.properties) = true
        · exact eq_of_beq hf
        · simp [hf] at h2
      · by_cases hA : assocHas kv.2.propertiesD tag = true
        · simp [hA] at h3
        · simpa using hA
      · by_cases hB : assocHas kv.2.optionalPropertiesD tag = true
        · simp [hB] at h3
        · simpa using hB

/-- C4 witness: the mapping soundness applied to the well-formed test
discriminator. -/
theorem c4_discriminator_checks_witness :
    ∃ mm, (Discr.mk "a" (some [("", Schema.mk none none none none none
        (some [("b", Schema.emptySchema)]) none none none)]) : Discr Schema).mapping = some mm ∧
      ∀ kv ∈ mm, verifyNode sDiscGood 19 kv.2 false = .ok ∧ kv.2.form = Form.properties ∧
        assocHas kv.2.propertiesD "a" = false ∧
        assocHas kv.2.optionalPropertiesD "a" = false :=
  c4_discriminator_checks.2.1 sDiscGood
    ⟨"a", some [("", Schema.mk none none none none none
      (some [("b", Schema.emptySchema)]) none none none)]⟩ 19 rfl rfl

/-- All sub-schemas reachable from a schema through `elements`,
`properties`, `optionalProperties`, `values` and discriminator-mapping
edges (the positions whose refs the verifier resolves against the root's
definitions), including the schema itself, cut off at the given depth. -/
def reachList : Nat → Schema → List Schema
  | 0, _ => []
  | fuel + 1, s =>
    s :: ((match s.elements with | some sub => reachList fuel sub | none => []) ++
      (s.propertiesD.flatMap fun kv => reachList fuel kv.2) ++
      (s.optionalPropertiesD.flatMap fun kv => reachList fuel kv.2) ++
      (match s.values with | some sub => reachList fuel sub | none => []) ++
      (match s.discriminator with
       | some d => (d.mapping.getD []).flatMap fun kv => reachList fuel kv.2
       | none => []))

/-- A node that passes verification has every reachable ref bound in the
root's definitions table. -/
theorem verifyNode_refs_resolve (root : Schema) :
    ∀ (fuel : Nat) (s : Schema) (isRoot : Bool), verifyNode root fuel s isRoot = .ok →
      ∀ u ∈ reachList fuel s, ∀ name, u.ref = some name →
        assocHas root.definitionsD name = true := by
  intro fuel
  induction fuel with
  | zero =>
    intro s isRoot h u hu
    rw [reachList] at hu
    simp at hu
  | succ fuel ih =>
    intro s isRoot h u hu name hr
    rw [verifyNode] at h
    simp only [orV_eq_ok] at h
    obtain ⟨-, -, h3, -, -, -, h7, -, h9, h10, h11, h12⟩ := h
    rw [reachList] at hu
    rcases List.mem_cons.mp hu with rfl | hu
    · rw [hr] at h3
      by_cases hk : assocHas root.definitionsD name = true
      · exact hk
      · simp [hk] at h3
    · simp only [List.mem_append] at hu
      rcases hu with ((((hu | hu) | hu) | hu) | hu)
      · cases hel : s.elements with
        | none => simp [hel] at hu
        | some sub =>
          simp only [hel] at hu h9
          exact ih sub false h9 u hu name hr
      · rcases List.mem_flatMap.mp hu with ⟨kv, hkv, hu⟩
        exact ih kv.2 false (listVerify_eq_ok h10 kv hkv) u hu name hr
      · rcases List.mem_flatMap.mp hu with ⟨kv, hkv, hu⟩
        exact ih kv.2 false (listVerify_eq_ok h11 kv hkv) u hu name hr
      · cases hv : s.values with
        | none => simp [hv] at hu
        | some sub =>
          simp only [hv] at hu h12
          exact ih sub false h12 u hu name hr
      · cases hdisc : s.discriminator with
        | none => simp [hdisc] at hu
        | some d =>
          obtain ⟨tag, m⟩ := d
          cases m with
          | none => simp [hdisc] at hu
          | some mm =>
            simp only [hdisc, Discr.mapping, Option.getD_some] at hu h7
            rcases List.mem_flatMap.mp hu with ⟨kv, hkv, hu2⟩
            have hok := listVerify_eq_ok h7 kv hkv
            simp only [orV_eq_ok] at hok
            exact ih kv.2 false hok.1 u hu2 name hr

/-- C6: a root whose ref names a missing definition fails verification with
the no-such-definition error carrying the name; a verified schema has every
ref reachable through elements, properties, optionalProperties, values or
discriminator mapping bound in the root's definitions; and each of the
dangling-ref test schemas at those positions reports no-such-definition
with the empty name. -/
theorem c6_no_such_definition :
    (∀ (defs : Option SMap) (name : String) (fuel : Nat),
      assocHas (defs.getD []) name = false →
      (Schema.mk defs (some name) none none none none none none none).verify (fuel + 1) =
        .err (.noSuchDefinition name)) ∧
    (∀ (s : Schema) (fuel : Nat), s.verify fuel = .ok →
      ∀ u ∈ reachList fuel s, ∀ name, u.ref = some name →
        assocHas s.definitionsD name = true) ∧
    sElemRef.verify 20 = .err (.noSuchDefinition "") ∧
    sPropsRef.verify 20 = .err (.noSuchDefinition "") ∧
    sOptsRef.verify 20 = .err (.noSuchDefinition "") ∧
    sValuesRef.verify 20 = .err (.noSuchDefinition "") ∧
    sDiscMapRef.verify 20 = .err (.noSuchDefinition "") := by
  refine ⟨?_, ?_, rfl, rfl, rfl, rfl, rfl⟩
  · intro defs name fuel hk
    rw [Schema.verify, verifyNode]
    simp [orV, Schema.formCount, formCountF, presence, Schema.definitions, Schema.ref,
      Schema.type, Schema.enum, Schema.elements, Schema.properties,
      Schema.optionalProperties, Schema.values, Schema.discriminator,
      Schema.definitionsD, hk]
  · intro s fuel h
    exact verifyNode_refs_resolve s fuel s true h

/-- C6 witness: the missing-definition rule applied to `\x7b"ref":""\x7d`. -/
theorem c6_no_such_definition_witness :
    (Schema.mk none (some "") none none none none none none none).verify 20 =
      .err (.noSuchDefinition "") :=
  c6_no_such_definition.1 none "" 19 rfl

/-! Machinery for the max-errors cap (claim C1): a run of the engine with
`maxErrors = 0` (unlimited) is related, step by step, to the same run with
a positive cap `N`. -/

/-- Relation between an uncapped engine continuation `g0` and its capped
counterpart `gN`: the uncapped run never halts on the cap and only appends
to its accumulator, and wherever the uncapped run returns errors `L` from
an accumulator still below the cap, the capped run returns `L` unchanged if
it stays below the cap and halts with the first `N` errors otherwise. -/
structure CapAfter (N : Nat) (g0 gN : List ValidationError → VResult) : Prop where
  noHalt : ∀ acc e, g0 acc ≠ VResult.halted e
  okAppend : ∀ acc L, g0 acc = VResult.ok L → ∃ t, L = acc ++ t
  capped : ∀ acc L, g0 acc = VResult.ok L → acc.length < N →
    gN acc = if L.length < N then VResult.ok L else VResult.halted (L.take N)

theorem capAfter_ext {N : Nat} {g0 gN g0' gN' : List ValidationError → VResult}
    (h0 : ∀ acc, g0 acc = g0' acc) (hN : ∀ acc, gN acc = gN' acc)
    (h : CapAfter N g0' gN') : CapAfter N g0 gN := by
  constructor
  · intro acc e
    rw [h0]
    exact h.noHalt acc e
  · intro acc L hL
    rw [h0] at hL
    exact h.okAppend acc L hL
  · intro acc L hL hlen
    rw [h0] at hL
    rw [hN]
    exact h.capped acc L hL hlen

theorem capAfter_pure (N : Nat) :
    CapAfter N (fun acc => VResult.ok acc) (fun acc => VResult.ok acc) := by
  constructor
  · intro acc e h
    cases h
  · intro acc L hL
    cases hL
    exact ⟨[], (List.append_nil acc).symm⟩
  · intro acc L hL hlen
    cases hL
    simp [hlen]

theorem capAfter_maxDepth (N : Nat) :
    CapAfter N (fun _ => VResult.maxDepth) (fun _ => VResult.maxDepth) := by
  constructor
  · intro acc e h
    cases h
  · intro acc L hL
    cases hL
  · intro acc L hL
    cases hL

theorem capAfter_fuelOut (N : Nat) :
    CapAfter N (fun _ => VResult.fuelOut) (fun _ => VResult.fuelOut) := by
  constructor
  · intro acc e h
    cases h
  · intro acc L hL
    cases hL
  · intro acc L hL
    cases hL

theorem capAfter_push {N : Nat} (d : Nat) (hN : 0 < N) (e : ValidationError) :
    CapAfter N (pushError (Validator.mk d 0) e) (pushError (Validator.mk d N) e) := by
  have hlen1 : ∀ acc : List ValidationError, (acc ++ [e]).length = acc.length + 1 := by
    intro acc
    simp
  constructor
  · intro acc e' h
    simp [pushError] at h
  · intro acc L hL
    have h' : VResult.ok (acc ++ [e]) = VResult.ok L := by simpa [pushError] using hL
    cases h'
    exact ⟨[e], rfl⟩
  · intro acc L hL hlen
    have h' : VResult.ok (acc ++ [e]) = VResult.ok L := by simpa [pushError] using hL
    cases h'
    simp only [pushError, hlen1]
    by_cases hc : acc.length + 1 < N
    · rw [if_neg (by omega), if_pos hc]
    · rw [if_pos (by omega), if_neg hc]
      have hNe : (acc ++ [e]).length = N := by rw [hlen1]; omega
      rw [← hNe, List.take_length]

theorem capAfter_seq {N : Nat} {g0 gN h0 hN : List ValidationError → VResult}
    (hg : CapAfter N g0 gN) (hh : CapAfter N h0 hN) :
    CapAfter N (fun acc => (g0 acc).andThen h0) (fun acc => (gN acc).andThen hN) := by
  constructor
  · intro acc e habs
    cases hc : g0 acc with
    | ok mid =>
      rw [hc] at habs
      exact hh.noHalt mid e habs
    | halted errs => exact hg.noHalt acc errs hc
    | maxDepth =>
      rw [hc] at habs
      cases habs
    | fuelOut =>
      rw [hc] at habs
      cases habs
  · intro acc L hL
    cases hc : g0 acc with
    | ok mid =>
      rw [hc] at hL
      obtain ⟨t1, ht1⟩ := hg.okAppend acc mid hc
      obtain ⟨t2, ht2⟩ := hh.okAppend mid L hL
      exact ⟨t1 ++ t2, by rw [ht2, ht1, List.append_assoc]⟩
    | halted errs => exact absurd hc (hg.noHalt acc errs)
    | maxDepth =>
      rw [hc] at hL
      cases hL
    | fuelOut =>
      rw [hc] at hL
      cases hL
  · intro acc L hL hlen
    cases hc : g0 acc with
    | ok mid =>
      rw [hc] at hL
      have hmid := hg.capped acc mid hc hlen
      by_cases hm : mid.length < N
      · rw [if_pos hm] at hmid
        rw [hmid]
        exact hh.capped mid L hL hm
      · rw [if_neg hm] at hmid
        rw [hmid]
        obtain ⟨t2, ht2⟩ := hh.okAppend mid L hL
        have hLlen : ¬L.length < N := by
          have := List.length_append mid t2
          rw [← ht2] at this
          omega
        rw [if_neg hLlen, ht2, List.take_append_of_le_length (by omega)]
        rfl
    | halted errs => exact absurd hc (hg.noHalt acc errs)
    | maxDepth =>
      rw [hc] at hL
      cases hL
    | fuelOut =>
      rw [hc] at hL
      cases hL

theorem capAfter_runList {N : Nat} {f0 fN : α → List ValidationError → VResult}
    (hf : ∀ x, CapAfter N (f0 x) (fN x)) :
    ∀ xs : List α, CapAfter N (runList f0 xs) (runList fN xs) := by
  intro xs
  induction xs with
  | nil => exact capAfter_ext (fun acc => rfl) (fun acc => rfl) (capAfter_pure N)
  | cons x xs ih => exact capAfter_ext (fun acc => rfl) (fun acc => rfl) (capAfter_seq (hf x) ih)

/-- The engine under a positive error cap `N` relates to the uncapped
engine by `CapAfter` at every state: same errors until the cap, truncation
and prompt halt at the cap. -/
theorem validateGo_cap {N : Nat} (hN : 0 < N) (d : Nat) (root : Schema) :
    ∀ (fuel : Nat) (ex : Option String) (depth : Nat) (ip sp : List String)
      (s : Schema) (i : Json),
      CapAfter N (validateGo (Validator.mk d 0) root fuel ex depth ip sp s i)
        (validateGo (Validator.mk d N) root fuel ex depth ip sp s i) := by
  intro fuel
  induction fuel with
  | zero =>
    intro ex depth ip sp s i
    exact capAfter_ext (fun acc => rfl) (fun acc => rfl) (capAfter_fuelOut N)
  | succ fuel ih =>
    intro ex depth ip sp s i
    cases hform : s.form with
    | empty =>
      refine capAfter_ext (fun acc => ?_) (fun acc => ?_) (capAfter_pure N) <;>
        simp [validateGo, hform]
    | ref =>
      by_cases hc : d ≠ 0 ∧ d < depth + 1
      · refine capAfter_ext (fun acc => ?_) (fun acc => ?_) (capAfter_maxDepth N) <;>
          simp [validateGo, hform, hc]
      · refine capAfter_ext (fun acc => ?_) (fun acc => ?_)
          (ih none (depth + 1) ip (sp ++ ["definitions", s.ref.getD ""])
            ((assocLookup root.definitionsD (s.ref.getD "")).getD Schema.emptySchema) i) <;>
          simp [validateGo, hform, hc]
    | type =>
      by_cases ht : typeMatches (s.type.getD "") i = true
      · refine capAfter_ext (fun acc => ?_) (fun acc => ?_) (capAfter_pure N) <;>
          simp [validateGo, hform, ht]
      · refine capAfter_ext (fun acc => ?_) (fun acc => ?_)
          (capAfter_push d hN ⟨ip, sp ++ ["type"]⟩) <;>
          simp [validateGo, hform, ht]
    | enum =>
      cases i with
      | str x =>
        by_cases hx : (s.enum.getD []).contains x = true
        · have hx' : x ∈ s.enum.getD [] := by simpa using hx
          refine capAfter_ext (fun acc => ?_) (fun acc => ?_) (capAfter_pure N) <;>
            simp [validateGo, hform, hx']
        · have hx' : x ∉ s.enum.getD [] := by simpa using hx
          refine capAfter_ext (fun acc => ?_) (fun acc => ?_)
            (capAfter_push d hN ⟨ip, sp ++ ["enum"]⟩) <;>
            simp [validateGo, hform, hx']
      | null =>
        refine capAfter_ext (fun acc => ?_) (fun acc => ?_)
          (capAfter_push d hN ⟨ip, sp ++ ["enum"]⟩) <;> simp [validateGo, hform]
      | bool b =>
        refine capAfter_ext (fun acc => ?_) (fun acc => ?_)
          (capAfter_push d hN ⟨ip, sp ++ ["enum"]⟩) <;> simp [validateGo, hform]
      | num q =>
        refine capAfter_ext (fun acc => ?_) (fun acc => ?_)
          (capAfter_push d hN ⟨ip, sp ++ ["enum"]⟩) <;> simp [validateGo, hform]
      | arr xs =>
        refine capAfter_ext (fun acc => ?_) (fun acc => ?_)
          (capAfter_push d hN ⟨ip, sp ++ ["enum"]⟩) <;> simp [validateGo, hform]
      | obj mem =>
        refine capAfter_ext (fun acc => ?_) (fun acc => ?_)
          (capAfter_push d hN ⟨ip, sp ++ ["enum"]⟩) <;> simp [validateGo, hform]
    | elements =>
      cases i with
      | arr xs =>
        refine capAfter_ext (fun acc => ?_) (fun acc => ?_)
          (capAfter_runList (fun p =>
            ih none depth (ip ++ [toString p.1]) (sp ++ ["elements"])
              (s.elements.getD Schema.emptySchema) p.2) xs.enum) <;>
          simp [validateGo, hform]
      | null =>
        refine capAfter_ext (fun acc => ?_) (fun acc => ?_)
          (capAfter_push d hN ⟨ip, sp ++ ["elements"]⟩) <;> simp [validateGo, hform]
      | bool b =>
        refine capAfter_ext (fun acc => ?_) (fun acc => ?_)
          (capAfter_push d hN ⟨ip, sp ++ ["elements"]⟩) <;> simp [validateGo, hform]
      | num q =>
        refine capAfter_ext (fun acc => ?_) (fun acc => ?_)
          (capAfter_push d hN ⟨ip, sp ++ ["elements"]⟩) <;> simp [validateGo, hform]
      | str x =>
        refine capAfter_ext (fun acc => ?_) (fun acc => ?_)
          (capAfter_push d hN ⟨ip, sp ++ ["elements"]⟩) <;> simp [validateGo, hform]
      | obj mem =>
        refine capAfter_ext (fun acc => ?_) (fun acc => ?_)
          (capAfter_push d hN ⟨ip, sp ++ ["elements"]⟩) <;> simp [validateGo, hform]
    | properties =>
      cases i with
      | obj mem =>
        have hA : ∀ kv : String × Schema, CapAfter N
            (fun acc => match jLookup mem kv.1 with
              | some val => validateGo (Validator.mk d 0) root fuel none depth
                  (ip ++ [kv.1]) (sp ++ ["properties", kv.1]) kv.2 val acc
              | none => pushError (Validator.mk d 0) ⟨ip, sp ++ ["properties", kv.1]⟩ acc)
            (fun acc => match jLookup mem kv.1 with
              | some val => validateGo (Validator.mk d N) root fuel none depth
                  (ip ++ [kv.1]) (sp ++ ["properties", kv.1]) kv.2 val acc
              | none => pushError (Validator.mk d N) ⟨ip, sp ++ ["properties", kv.1]⟩ acc) := by
          intro kv
          cases hl : jLookup mem kv.1 with
          | some val =>
            refine capAfter_ext (fun acc => ?_) (fun acc => ?_)
              (ih none depth (ip ++ [kv.1]) (sp ++ ["properties", kv.1]) kv.2 val) <;>
              simp [hl]
          | none =>
            refine capAfter_ext (fun acc => ?_) (fun acc => ?_)
              (capAfter_push d hN ⟨ip, sp ++ ["properties", kv.1]⟩) <;> simp [hl]
        have hB : ∀ kv : String × Schema, CapAfter N
            (fun acc => match jLookup mem kv.1 with
              | some val => validateGo (Validator.mk d 0) root fuel none depth
                  (ip ++ [kv.1]) (sp ++ ["optionalProperties", kv.1]) kv.2 val acc
              | none => VResult.ok acc)
            (fun acc => match jLookup mem kv.1 with
              | some val => validateGo (Validator.mk d N) root fuel none depth
                  (ip ++ [kv.1]) (sp ++ ["optionalProperties", kv.1]) kv.2 val acc
              | none => VResult.ok acc) := by
          intro kv
          cases hl : jLookup mem kv.1 with
          | some val =>
            refine capAfter_ext (fun acc => ?_) (fun acc => ?_)
              (ih none depth (ip ++ [kv.1]) (sp ++ ["optionalProperties", kv.1]) kv.2 val) <;>
              simp [hl]
          | none =>
            refine capAfter_ext (fun acc => ?_) (fun acc => ?_) (capAfter_pure N) <;> simp [hl]
        have hC : ∀ kv : String × Json, CapAfter N
            (fun acc =>
              if assocHas s.propertiesD kv.1 || assocHas s.optionalPropertiesD kv.1 then VResult.ok acc
              else if ex == some kv.1 then VResult.ok acc
              else pushError (Validator.mk d 0) ⟨ip ++ [kv.1], sp⟩ acc)
            (fun acc =>
              if assocHas s.propertiesD kv.1 || assocHas s.optionalPropertiesD kv.1 then VResult.ok acc
              else if ex == some kv.1 then VResult.ok acc
              else pushError (Validator.mk d N) ⟨ip ++ [kv.1], sp⟩ acc) := by
          intro kv
          by_cases h1 : (assocHas s.propertiesD kv.1 || assocHas s.optionalPropertiesD kv.1) = true
          · refine capAfter_ext (fun acc => ?_) (fun acc => ?_) (capAfter_pure N) <;> simp [h1]
          · by_cases h2 : (ex == some kv.1) = true
            · refine capAfter_ext (fun acc => ?_) (fun acc => ?_) (capAfter_pure N) <;>
                simp [h1, h2]
            · refine capAfter_ext (fun acc => ?_) (fun acc => ?_)
                (capAfter_push d hN ⟨ip ++ [kv.1], sp⟩) <;> simp [h1, h2]
        refine capAfter_ext (fun acc => ?_) (fun acc => ?_)
          (capAfter_seq (capAfter_runList hA s.propertiesD)
            (capAfter_seq (capAfter_runList hB s.optionalPropertiesD)
              (capAfter_runList hC mem))) <;>
          simp [validateGo, hform]
      | null =>
        refine capAfter_ext (fun acc => ?_) (fun acc => ?_)
          (capAfter_push d hN ⟨ip, sp ++ [if s.properties.isSome then "properties"
            else "optionalProperties"]⟩) <;> simp [validateGo, hform]
      | bool b =>
        refine capAfter_ext (fun acc => ?_) (fun acc => ?_)
          (capAfter_push d hN ⟨ip, sp ++ [if s.properties.isSome then "properties"
            else "optionalProperties"]⟩) <;> simp [validateGo, hform]
      | num q =>
        refine capAfter_ext (fun acc => ?_) (fun acc => ?_)
          (capAfter_push d hN ⟨ip, sp ++ [if s.properties.isSome then "properties"
            else "optionalProperties"]⟩) <;> simp [validateGo, hform]
      | str x =>
        refine capAfter_ext (fun acc => ?_) (fun acc => ?_)
          (capAfter_push d hN ⟨ip, sp ++ [if s.properties.isSome then "properties"
            else "optionalProperties"]⟩) <;> simp [validateGo, hform]
      | arr xs =>
        refine capAfter_ext (fun acc => ?_) (fun acc => ?_)
          (capAfter_push d hN ⟨ip, sp ++ [if s.properties.isSome then "properties"
            else "optionalProperties"]⟩) <;> simp [validateGo, hform]
    | values =>
      cases i with
      | obj mem =>
        refine capAfter_ext (fun acc => ?_) (fun acc => ?_)
          (capAfter_runList (fun kv =>
            ih none depth (ip ++ [kv.1]) (sp ++ ["values"])
              (s.values.getD Schema.emptySchema) kv.2) mem) <;>
          simp [validateGo, hform]
      | null =>
        refine capAfter_ext (fun acc => ?_) (fun acc => ?_)
          (capAfter_push d hN ⟨ip, sp ++ ["values"]⟩) <;> simp [validateGo, hform]
      | bool b =>
        refine capAfter_ext (fun acc => ?_) (fun acc => ?_)
          (capAfter_push d hN ⟨ip, sp ++ ["values"]⟩) <;> simp [validateGo, hform]
      | num q =>
        refine capAfter_ext (fun acc => ?_) (fun acc => ?_)
          (capAfter_push d hN ⟨ip, sp ++ ["values"]⟩) <;> simp [validateGo, hform]
      | str x =>
        refine capAfter_ext (fun acc => ?_) (fun acc => ?_)
          (capAfter_push d hN ⟨ip, sp ++ ["values"]⟩) <;> simp [validateGo, hform]
      | arr xs =>
        refine capAfter_ext (fun acc => ?_) (fun acc => ?_)
          (capAfter_push d hN ⟨ip, sp ++ ["values"]⟩) <;> simp [validateGo, hform]
    | discriminator =>
      cases i with
      | obj mem =>
        cases hjt : jLookup mem (s.discriminator.getD ⟨"", none⟩).tag with
        | none =>
          refine capAfter_ext (fun acc => ?_) (fun acc => ?_)
            (capAfter_push d hN ⟨ip, sp ++ ["discriminator", "tag"]⟩) <;>
            simp [validateGo, hform, hjt]
        | some jv =>
          cases jv with
          | str tv =>
            cases hms : assocLookup ((s.discriminator.getD ⟨"", none⟩).mapping.getD []) tv with
            | some sub =>
              refine capAfter_ext (fun acc => ?_) (fun acc => ?_)
                (ih (some (s.discriminator.getD ⟨"", none⟩).tag) depth ip
                  (sp ++ ["discriminator", "mapping", tv]) sub (Json.obj mem)) <;>
                simp [validateGo, hform, hjt, hms]
            | none =>
              refine capAfter_ext (fun acc => ?_) (fun acc => ?_)
                (capAfter_push d hN ⟨ip ++ [(s.discriminator.getD ⟨"", none⟩).tag],
                  sp ++ ["discriminator", "mapping"]⟩) <;>
                simp [validateGo, hform, hjt, hms]
          | null =>
            refine capAfter_ext (fun acc => ?_) (fun acc => ?_)
              (capAfter_push d hN ⟨ip ++ [(s.discriminator.getD ⟨"", none⟩).tag],
                sp ++ ["discriminator", "tag"]⟩) <;> simp [validateGo, hform, hjt]
          | bool b =>
            refine capAfter_ext (fun acc => ?_) (fun acc => ?_)
              (capAfter_push d hN ⟨ip ++ [(s.discriminator.getD ⟨"", none⟩).tag],
                sp ++ ["discriminator", "tag"]⟩) <;> simp [validateGo, hform, hjt]
          | num q =>
            refine capAfter_ext (fun acc => ?_) (fun acc => ?_)
              (capAfter_push d hN ⟨ip ++ [(s.discriminator.getD ⟨"", none⟩).tag],
                sp ++ ["discriminator", "tag"]⟩) <;> simp [validateGo, hform, hjt]
          | arr xs =>
            refine capAfter_ext (fun acc => ?_) (fun acc => ?_)
              (capAfter_push d hN ⟨ip ++ [(s.discriminator.getD ⟨"", none⟩).tag],
                sp ++ ["discriminator", "tag"]⟩) <;> simp [validateGo, hform, hjt]
          | obj mem2 =>
            refine capAfter_ext (fun acc => ?_) (fun acc => ?_)
              (capAfter_push d hN ⟨ip ++ [(s.discriminator.getD ⟨"", none⟩).tag],
                sp ++ ["discriminator", "tag"]⟩) <;> simp [validateGo, hform, hjt]
      | null =>
        refine capAfter_ext (fun acc => ?_) (fun acc => ?_)
          (capAfter_push d hN ⟨ip, sp ++ ["discriminator"]⟩) <;> simp [validateGo, hform]
      | bool b =>
        refine capAfter_ext (fun acc => ?_) (fun acc => ?_)
          (capAfter_push d hN ⟨ip, sp ++ ["discriminator"]⟩) <;> simp [validateGo, hform]
      | num q =>
        refine capAfter_ext (fun acc => ?_) (fun acc => ?_)
          (capAfter_push d hN ⟨ip, sp ++ ["discriminator"]⟩) <;> simp [validateGo, hform]
      | str x =>
        refine capAfter_ext (fun acc => ?_) (fun acc => ?_)
          (capAfter_push d hN ⟨ip, sp ++ ["discriminator"]⟩) <;> simp [validateGo, hform]
      | arr xs =>
        refine capAfter_ext (fun acc => ?_) (fun acc => ?_)
          (capAfter_push d hN ⟨ip, sp ++ ["discriminator"]⟩) <;> simp [validateGo, hform]

/-- The five errors the TestMaxErrors schema naturally produces on the
five-null array, in traversal order. -/
def fiveElemErrors : List ValidationError :=
  [⟨["0"], ["elements", "type"]⟩, ⟨["1"], ["elements", "type"]⟩,
   ⟨["2"], ["elements", "type"]⟩, ⟨["3"], ["elements", "type"]⟩,
   ⟨["4"], ["elements", "type"]⟩]

/-- C1: with a positive error cap `N`, a validation that completes uncapped
with error list `L` completes capped with exactly the first `min(|L|, N)`
errors, namely `L` truncated at `N`; concretely the TestMaxErrors run
produces 5 natural errors and, with `maxErrors = 3`, exactly the 3 errors
at instance paths `["0"]`, `["1"]`, `["2"]` and schema path
`["elements","type"]`, in traversal order. -/
theorem c1_max_errors_cap :
    (∀ (d N fuel : Nat) (s : Schema) (i : Json) (L : List ValidationError), 0 < N →
      (Validator.mk d 0).validate fuel s i = some (ValidateResult.ok L) →
      (Validator.mk d N).validate fuel s i = some (ValidateResult.ok (L.take N)) ∧
        (L.take N).length = min N L.length) ∧
    (Validator.mk 0 0).validate 10 sElemBool iFiveNulls =
      some (ValidateResult.ok fiveElemErrors) ∧
    (Validator.mk 0 3).validate 10 sElemBool iFiveNulls =
      some (ValidateResult.ok [⟨["0"], ["elements", "type"]⟩, ⟨["1"], ["elements", "type"]⟩,
        ⟨["2"], ["elements", "type"]⟩]) := by
  refine ⟨?_, rfl, rfl⟩
  intro d N fuel s i L hN h
  have hca := validateGo_cap hN d s fuel none 0 [] [] s i
  refine ⟨?_, by simp⟩
  unfold Validator.validate at h ⊢
  cases hg : validateGo (Validator.mk d 0) s fuel none 0 [] [] s i [] with
  | ok errs =>
    rw [hg] at h
    simp only [Option.some.injEq, ValidateResult.ok.injEq] at h
    subst h
    have hcap := hca.capped [] errs hg (by simpa using hN)
    by_cases hl : errs.length < N
    · rw [if_pos hl] at hcap
      rw [hcap]
      simp [List.take_of_length_le (Nat.le_of_lt hl)]
    · rw [if_neg hl] at hcap
      rw [hcap]
  | halted errs => exact absurd hg (hca.noHalt [] errs)
  | maxDepth =>
    rw [hg] at h
    simp at h
  | fuelOut =>
    rw [hg] at h
    simp at h

/-- C1 witness: the cap theorem applied to the TestMaxErrors run. -/
theorem c1_max_errors_cap_witness :
    (Validator.mk 0 3).validate 10 sElemBool iFiveNulls =
      some (ValidateResult.ok (fiveElemErrors.take 3)) ∧
    (fiveElemErrors.take 3).length = min 3 fiveElemErrors.length :=
  c1_max_errors_cap.1 0 3 10 sElemBool iFiveNulls fiveElemErrors (by decide) rfl

end JDDF
